import Mathlib

/-!
Shallow embedding of `SimpleSignal.h` (namespace `signals`): the classes
`Signal` and `PrioritySignal`, the helper `PrioritizedCallback`, and the
comparator `PriorityCompare`.

Modelling choices:
* `callback_id` is `typedef int`; it is modelled as `Int` (no trace considered
  here is long enough for signed overflow, which would be undefined behaviour
  in the source anyway).
* Callables are opaque values of a type parameter `κ`.  Invoking a callable is
  modelled by a semantics function `f : κ → A → Option ε` supplied to
  `dispatch`: `f c a = none` means the call `c(a)` returns normally,
  `f c a = some err` means it throws `err`.  A dispatch returns the trace of
  invocations it performed (identifier of the entry, the callable, the
  arguments passed), the propagated exception if any, and the registry state
  after the loop (the loop body never writes any member, so the state is
  threaded through unchanged).
* `Signal` stores its callbacks in a `std::map<callback_id, callback>`; a
  `std::map` is modelled as an association list kept sorted by strictly
  ascending key, with `insert` (which does not overwrite an existing key) and
  `erase` translated accordingly.  Iteration order of the map is its list
  order.
* `PrioritySignal` stores a `std::list<PrioritizedCallback>`, sorted after
  each `add` with `list::sort(PriorityCompare)`.  `std::list::sort` is
  required by the C++ standard to be stable; a stable sort's output is the
  unique permutation that is sorted for the comparator and keeps elements the
  comparator ties in their original relative order, and `sortList` below (an
  insertion sort whose insertion step moves the inserted element left past
  exactly the elements it beats under `PriorityCompare`) computes that output.
* `Signal` has the user constructor `Signal() : callbackId(0)`.
  `PrioritySignal` declares no constructor at all, so for a
  default-initialized `PrioritySignal` object the member `callbackId` holds an
  indeterminate value; `PrioritySignal.mkUninit c` models the instance whose
  indeterminate initial counter happens to be `c`.
-/

variable {κ : Type} {A : Type} {ε : Type} {β : Type} {σ : Type}

/-- Insertion into a `std::map` modelled as a key-sorted association list:
`insert` places the new pair at its key position and does nothing when the key
is already present (`std::map::insert` never overwrites). -/
def mapInsert (k : Int) (v : κ) : List (Int × κ) → List (Int × κ)
  | [] => [(k, v)]
  | (k', v') :: rest =>
    if k < k' then (k, v) :: (k', v') :: rest
    else if k = k' then (k', v') :: rest
    else (k', v') :: mapInsert k v rest

/-- `std::map::erase(key)`: drop the entry with that key (a map holds at most
one) and keep everything else. -/
def mapErase (k : Int) : List (Int × κ) → List (Int × κ)
  | [] => []
  | (k', v') :: rest => if k' = k then rest else (k', v') :: mapErase k rest

/-- The dispatch loop shared by both classes
(`for (auto cb : container) cb(args...)`): walk the container in order,
invoke each callable with the arguments, record the invocation, and stop at
the first invocation that throws, propagating the exception (the source has no
try/catch).  The registry state `st` is threaded through untouched because the
loop body only calls the callable and never writes a member. -/
def dispatchLoop (cbOf : β → κ) (idOf : β → Int) (f : κ → A → Option ε)
    (a : A) (st : σ) : List β → List (Int × κ × A) × Option ε × σ
  | [] => ([], none, st)
  | e :: rest =>
    match f (cbOf e) a with
    | some err => ([(idOf e, cbOf e, a)], some err, st)
    | none =>
      let r := dispatchLoop cbOf idOf f a st rest
      ((idOf e, cbOf e, a) :: r.1, r.2.1, r.2.2)

/-- State of `signals::Signal`: the id counter `callbackId` and the
`callback_map callbackMap` (a `std::map`, kept key-sorted). -/
@[ext]
structure Signal (κ : Type) where
  callbackId : Int
  callbackMap : List (Int × κ)
  deriving Repr, DecidableEq

/-- `Signal() : callbackId(0)` with an empty map. -/
def Signal.mk0 : Signal κ := ⟨0, []⟩

/-- `Signal::add`: `auto newId = ++callbackId; callbackMap.insert({newId, cb});
return newId;`. -/
def Signal.add (s : Signal κ) (cb : κ) : Int × Signal κ :=
  let newId := s.callbackId + 1
  (newId, ⟨newId, mapInsert newId cb s.callbackMap⟩)

/-- `Signal::remove`: `callbackMap.erase(cbId);`. -/
def Signal.remove (s : Signal κ) (cbId : Int) : Signal κ :=
  ⟨s.callbackId, mapErase cbId s.callbackMap⟩

/-- `Signal::removeAll`: `callbackMap.clear();`. -/
def Signal.removeAll (s : Signal κ) : Signal κ :=
  ⟨s.callbackId, []⟩

/-- `Signal::dispatch`: `for (auto cb : callbackMap) cb.second(args...);`,
iterating the map in its (key-ascending) order. -/
def Signal.dispatch (f : κ → A → Option ε) (s : Signal κ) (a : A) :
    List (Int × κ × A) × Option ε × Signal κ :=
  dispatchLoop Prod.snd Prod.fst f a s s.callbackMap

/-- `signals::PrioritizedCallback`: callable + priority + id, immutable after
construction. -/
@[ext]
structure PrioritizedCallback (κ : Type) where
  priorityCallback : κ
  priority : Int
  callbackId : Int
  deriving Repr, DecidableEq

/-- `PriorityCompare(a, b) = a.getPriority() > b.getPriority()`. -/
def PriorityCompare (a b : PrioritizedCallback κ) : Bool :=
  decide (a.priority > b.priority)

/-- Insertion step of the stable sort: the element `e` (which precedes the
already-sorted `l` in the pre-sort order) moves left past exactly the elements
`x` with `PriorityCompare x e`, so an element never jumps over one it ties
with. -/
def insertSorted (e : PrioritizedCallback κ) :
    List (PrioritizedCallback κ) → List (PrioritizedCallback κ)
  | [] => [e]
  | x :: xs => if PriorityCompare x e then x :: insertSorted e xs else e :: x :: xs

/-- `callbackList.sort(PriorityCompare)`: `std::list::sort` is stable; this
insertion sort computes the (unique) stable-sort output for
`PriorityCompare`. -/
def sortList : List (PrioritizedCallback κ) → List (PrioritizedCallback κ)
  | [] => []
  | x :: xs => insertSorted x (sortList xs)

/-- The erase loop of `PrioritySignal::remove`: walk the list and erase every
entry whose `getCallbackId()` equals the argument. -/
def removeLoop (cbId : Int) :
    List (PrioritizedCallback κ) → List (PrioritizedCallback κ)
  | [] => []
  | e :: rest =>
    if e.callbackId = cbId then removeLoop cbId rest else e :: removeLoop cbId rest

/-- State of `signals::PrioritySignal`: the id counter `callbackId` and the
`list<PrioritizedCallback> callbackList`. -/
@[ext]
structure PrioritySignal (κ : Type) where
  callbackId : Int
  callbackList : List (PrioritizedCallback κ)
  deriving Repr, DecidableEq

/-- A freshly constructed `PrioritySignal`.  The class declares NO
constructor, so after default-initialization the member `callbackId` holds an
indeterminate value `c` (the list, having a default constructor of its own, is
empty). -/
def PrioritySignal.mkUninit (c : Int) : PrioritySignal κ := ⟨c, []⟩

/-- `PrioritySignal::add`: `int newId = ++callbackId;
callbackList.emplace_back(cb, priority, newId);
callbackList.sort(PriorityCompare); return newId;`. -/
def PrioritySignal.add (s : PrioritySignal κ) (cb : κ) (priority : Int) :
    Int × PrioritySignal κ :=
  let newId := s.callbackId + 1
  (newId, ⟨newId, sortList (s.callbackList ++ [⟨cb, priority, newId⟩])⟩)

/-- `PrioritySignal::remove`: the erase loop over `callbackList`. -/
def PrioritySignal.remove (s : PrioritySignal κ) (cbId : Int) : PrioritySignal κ :=
  ⟨s.callbackId, removeLoop cbId s.callbackList⟩

/-- `PrioritySignal::removeAll`: `callbackList.clear();`. -/
def PrioritySignal.removeAll (s : PrioritySignal κ) : PrioritySignal κ :=
  ⟨s.callbackId, []⟩

/-- `PrioritySignal::dispatch`: iterate `callbackList` in order and call
`priorityCallback.getCallback()(args...)`. -/
def PrioritySignal.dispatch (f : κ → A → Option ε) (s : PrioritySignal κ)
    (a : A) : List (Int × κ × A) × Option ε × PrioritySignal κ :=
  dispatchLoop PrioritizedCallback.priorityCallback PrioritizedCallback.callbackId
    f a s s.callbackList

/-- A mutating call on a `Signal` object. -/
inductive SOp (κ : Type) where
  | add (cb : κ)
  | remove (cbId : Int)
  | removeAll
  deriving Repr, DecidableEq

/-- A mutating call on a `PrioritySignal` object. -/
inductive POp (κ : Type) where
  | add (cb : κ) (priority : Int)
  | remove (cbId : Int)
  | removeAll
  deriving Repr, DecidableEq

/-- Run a sequence of calls on a `Signal`, returning the final state and the
identifiers returned by the `add` calls, in call order. -/
def Signal.runOps (s : Signal κ) : List (SOp κ) → Signal κ × List Int
  | [] => (s, [])
  | SOp.add cb :: rest =>
    let r := s.add cb
    let t := Signal.runOps r.2 rest
    (t.1, r.1 :: t.2)
  | SOp.remove cbId :: rest => Signal.runOps (s.remove cbId) rest
  | SOp.removeAll :: rest => Signal.runOps s.removeAll rest

/-- Run a sequence of calls on a `PrioritySignal`, returning the final state
and the identifiers returned by the `add` calls, in call order. -/
def PrioritySignal.runOps (s : PrioritySignal κ) :
    List (POp κ) → PrioritySignal κ × List Int
  | [] => (s, [])
  | POp.add cb p :: rest =>
    let r := s.add cb p
    let t := PrioritySignal.runOps r.2 rest
    (t.1, r.1 :: t.2)
  | POp.remove cbId :: rest => PrioritySignal.runOps (s.remove cbId) rest
  | POp.removeAll :: rest => PrioritySignal.runOps s.removeAll rest

/-- States of a `Signal` reachable from construction by any sequence of
`add` / `remove` / `removeAll` calls. -/
inductive Signal.Reachable : Signal κ → Prop
  | init : Signal.Reachable Signal.mk0
  | add (cb : κ) {s : Signal κ} :
      Signal.Reachable s → Signal.Reachable (s.add cb).2
  | remove (cbId : Int) {s : Signal κ} :
      Signal.Reachable s → Signal.Reachable (s.remove cbId)
  | removeAll {s : Signal κ} :
      Signal.Reachable s → Signal.Reachable s.removeAll

/-- States of a `PrioritySignal` reachable from construction (with whatever
value `c` the uninitialized counter happens to hold) by any sequence of
`add` / `remove` / `removeAll` calls. -/
inductive PrioritySignal.Reachable : PrioritySignal κ → Prop
  | init (c : Int) : PrioritySignal.Reachable (PrioritySignal.mkUninit c)
  | add (cb : κ) (p : Int) {s : PrioritySignal κ} :
      PrioritySignal.Reachable s → PrioritySignal.Reachable (s.add cb p).2
  | remove (cbId : Int) {s : PrioritySignal κ} :
      PrioritySignal.Reachable s → PrioritySignal.Reachable (s.remove cbId)
  | removeAll {s : PrioritySignal κ} :
      PrioritySignal.Reachable s → PrioritySignal.Reachable s.removeAll

/-! ### Lemmas about the dispatch loop -/

/-- When no callable can throw (`ε = Empty`), the dispatch loop performs one
invocation per entry, in container order, each with the given arguments, and
leaves the state unchanged. -/
theorem dispatchLoop_noFail (cbOf : β → κ) (idOf : β → Int)
    (f : κ → A → Option Empty) (a : A) (st : σ) (l : List β) :
    dispatchLoop cbOf idOf f a st l =
      (l.map (fun e => (idOf e, cbOf e, a)), none, st) := by
  induction l with
  | nil => rfl
  | cons e rest ih =>
    cases h : f (cbOf e) a with
    | some err => exact err.elim
    | none => simp [dispatchLoop, h, ih]

/-- The dispatch loop never modifies the registry state it threads. -/
theorem dispatchLoop_state (cbOf : β → κ) (idOf : β → Int)
    (f : κ → A → Option ε) (a : A) (st : σ) (l : List β) :
    (dispatchLoop cbOf idOf f a st l).2.2 = st := by
  induction l with
  | nil => rfl
  | cons e rest ih =>
    cases h : f (cbOf e) a with
    | some err => simp [dispatchLoop, h]
    | none => simp [dispatchLoop, h, ih]

/-- Every invocation the dispatch loop records comes from an entry of the
container, with exactly the given arguments. -/
theorem dispatchLoop_mem (cbOf : β → κ) (idOf : β → Int)
    (f : κ → A → Option ε) (a : A) (st : σ) (l : List β)
    (t : Int × κ × A) (ht : t ∈ (dispatchLoop cbOf idOf f a st l).1) :
    ∃ e ∈ l, t = (idOf e, cbOf e, a) := by
  induction l with
  | nil => simp [dispatchLoop] at ht
  | cons e rest ih =>
    cases h : f (cbOf e) a with
    | some err =>
      rw [dispatchLoop, h] at ht
      simp only [List.mem_singleton] at ht
      exact ⟨e, List.mem_cons_self e rest, ht⟩
    | none =>
      rw [dispatchLoop, h] at ht
      rcases List.mem_cons.1 ht with rfl | ht'
      · exact ⟨e, List.mem_cons_self e rest, rfl⟩
      · obtain ⟨e', he', ht''⟩ := ih ht'
        exact ⟨e', List.mem_cons_of_mem e he', ht''⟩

/-- If entry `k` (0-based, in container order) is the first whose invocation
throws, the loop performs exactly the invocations of entries `0..k`, in order,
propagates that exception, and leaves the state unchanged. -/
theorem dispatchLoop_take (cbOf : β → κ) (idOf : β → Int)
    (f : κ → A → Option ε) (a : A) (st : σ) (l : List β)
    (k : Nat) (hk : k < l.length) (err : ε)
    (hfail : f (cbOf (l.get ⟨k, hk⟩)) a = some err)
    (hpre : ∀ j (hj : j < k), f (cbOf (l.get ⟨j, hj.trans hk⟩)) a = none) :
    dispatchLoop cbOf idOf f a st l =
      ((l.take (k+1)).map (fun e => (idOf e, cbOf e, a)), some err, st) := by
  induction l generalizing k with
  | nil => exact absurd hk (Nat.not_lt_zero k)
  | cons e rest ih =>
    cases k with
    | zero =>
      have hfail0 : f (cbOf e) a = some err := hfail
      simp [dispatchLoop, hfail0]
    | succ k =>
      have h0 : f (cbOf e) a = none := hpre 0 (Nat.succ_pos k)
      have hk' : k < rest.length := Nat.lt_of_succ_lt_succ hk
      have hrest := ih k hk' hfail (fun j hj => hpre (j+1) (Nat.succ_lt_succ hj))
      simp [dispatchLoop, h0, hrest]

/-! ### Lemmas about the stable sort of `PrioritySignal` -/

/-- An entry `a` must be dispatched before `b`: either `a` has strictly higher
priority, or the priorities tie and `a` was inserted earlier (identifiers are
issued in insertion order). -/
def entryOrd (a b : PrioritizedCallback κ) : Prop :=
  b.priority ≤ a.priority ∧ (a.priority = b.priority → a.callbackId < b.callbackId)

/-- Tie-breaking part of `entryOrd` alone. -/
def tieOrd (a b : PrioritizedCallback κ) : Prop :=
  a.priority = b.priority → a.callbackId < b.callbackId

theorem mem_insertSorted (e y : PrioritizedCallback κ)
    (l : List (PrioritizedCallback κ)) :
    y ∈ insertSorted e l ↔ y = e ∨ y ∈ l := by
  induction l with
  | nil => simp [insertSorted]
  | cons x xs ih =>
    by_cases hc : PriorityCompare x e = true
    · rw [insertSorted, if_pos hc]
      simp only [List.mem_cons, ih]
      tauto
    · rw [insertSorted, if_neg hc]
      simp only [List.mem_cons]

theorem mem_sortList (y : PrioritizedCallback κ)
    (l : List (PrioritizedCallback κ)) : y ∈ sortList l ↔ y ∈ l := by
  induction l with
  | nil => simp [sortList]
  | cons x xs ih =>
    rw [sortList, mem_insertSorted, ih, List.mem_cons]

/-- Inserting `e` into a list already ordered by `entryOrd` keeps it ordered,
provided `e` breaks every possible tie with the resident entries the right way
(`e` was inserted later than all of them, so on a tie it must sort after). -/
theorem insertSorted_pairwise (e : PrioritizedCallback κ)
    (l : List (PrioritizedCallback κ)) (h : l.Pairwise entryOrd)
    (he : ∀ y ∈ l, tieOrd e y) :
    (insertSorted e l).Pairwise entryOrd := by
  induction l with
  | nil => simp [insertSorted, List.pairwise_cons]
  | cons x xs ih =>
    rw [List.pairwise_cons] at h
    by_cases hc : PriorityCompare x e = true
    · have hlt : e.priority < x.priority := by
        simpa [PriorityCompare] using hc
      rw [insertSorted, if_pos hc, List.pairwise_cons]
      constructor
      · intro y hy
        rcases (mem_insertSorted e y xs).1 hy with rfl | hy'
        · exact ⟨le_of_lt hlt, fun hp => absurd hp (ne_of_gt hlt)⟩
        · exact h.1 y hy'
      · exact ih h.2 (fun y hy => he y (List.mem_cons_of_mem x hy))
    · have hle : x.priority ≤ e.priority := by
        simpa [PriorityCompare, not_lt] using hc
      rw [insertSorted, if_neg hc, List.pairwise_cons]
      constructor
      · intro y hy
        rcases List.mem_cons.1 hy with rfl | hy'
        · exact ⟨hle, he y (List.mem_cons_self y xs)⟩
        · exact ⟨le_trans (h.1 y hy').1 hle, he y (List.mem_cons_of_mem x hy')⟩
      · exact List.pairwise_cons.2 ⟨h.1, h.2⟩

/-- Sorting a list in which every pair of entries breaks ties in insertion
order yields a list ordered by `entryOrd`: descending priority, ties in
insertion order. -/
theorem sortList_pairwise (l : List (PrioritizedCallback κ))
    (h : l.Pairwise tieOrd) : (sortList l).Pairwise entryOrd := by
  induction l with
  | nil => simp [sortList]
  | cons x xs ih =>
    rw [List.pairwise_cons] at h
    exact insertSorted_pairwise x (sortList xs) (ih h.2)
      (fun y hy => h.1 y ((mem_sortList y xs).1 hy))

/-- The erase loop of `PrioritySignal::remove` is exactly a filter: it deletes
the entries carrying the identifier and keeps all others in order. -/
theorem removeLoop_eq_filter (cbId : Int)
    (l : List (PrioritizedCallback κ)) :
    removeLoop cbId l = l.filter (fun e => e.callbackId ≠ cbId) := by
  induction l with
  | nil => rfl
  | cons e rest ih =>
    by_cases h : e.callbackId = cbId <;>
      simp [removeLoop, List.filter_cons, h, ih]

/-! ### Lemmas about the key-sorted map of `Signal` -/

/-- Map entries are ordered by strictly ascending key. -/
def keyLT (a b : Int × κ) : Prop := a.1 < b.1

theorem mem_mapInsert (k : Int) (v : κ) : ∀ (l : List (Int × κ)) (q : Int × κ),
    q ∈ mapInsert k v l → q = (k, v) ∨ q ∈ l
  | [], q, hq => by simpa [mapInsert] using hq
  | (k', v') :: rest, q, hq => by
    rw [mapInsert] at hq
    split_ifs at hq with h1 h2
    · rcases List.mem_cons.1 hq with rfl | h
      · exact Or.inl rfl
      · exact Or.inr h
    · exact Or.inr hq
    · rcases List.mem_cons.1 hq with rfl | h
      · exact Or.inr (List.mem_cons_self _ _)
      · rcases mem_mapInsert k v rest q h with h' | h'
        · exact Or.inl h'
        · exact Or.inr (List.mem_cons_of_mem _ h')

theorem mapInsert_pairwise (k : Int) (v : κ) : ∀ (l : List (Int × κ)),
    l.Pairwise keyLT → (mapInsert k v l).Pairwise keyLT
  | [], _ => by simp [mapInsert, keyLT]
  | (k', v') :: rest, h => by
    rw [List.pairwise_cons] at h
    rw [mapInsert]
    split_ifs with h1 h2
    · rw [List.pairwise_cons]
      refine ⟨?_, List.pairwise_cons.2 ⟨h.1, h.2⟩⟩
      intro q hq
      rcases List.mem_cons.1 hq with rfl | hq'
      · exact h1
      · exact lt_trans h1 (h.1 q hq')
    · exact List.pairwise_cons.2 ⟨h.1, h.2⟩
    · rw [List.pairwise_cons]
      refine ⟨?_, mapInsert_pairwise k v rest h.2⟩
      intro q hq
      rcases mem_mapInsert k v rest q hq with rfl | hq'
      · exact lt_of_le_of_ne (not_lt.1 h1) (Ne.symm h2)
      · exact h.1 q hq'

/-- `erase` removes only entries carrying the erased key: in a genuine map
(strictly ascending keys, hence no duplicate key) nothing with that key
survives. -/
theorem mapErase_keys (k : Int) : ∀ (l : List (Int × κ)),
    l.Pairwise keyLT → ∀ q ∈ mapErase k l, q.1 ≠ k
  | [], _, q, hq => by simp [mapErase] at hq
  | (k', v') :: rest, h, q, hq => by
    rw [List.pairwise_cons] at h
    rw [mapErase] at hq
    split_ifs at hq with h1
    · subst h1
      have hlt := h.1 q hq
      simp only [keyLT] at hlt
      omega
    · rcases List.mem_cons.1 hq with rfl | hq'
      · exact h1
      · exact mapErase_keys k rest h.2 q hq'

/-- Erasing a key that is not in the map is a no-op. -/
theorem mapErase_not_mem (k : Int) : ∀ (l : List (Int × κ)),
    k ∉ l.map Prod.fst → mapErase k l = l
  | [], _ => rfl
  | (k', v') :: rest, h => by
    rw [List.map_cons, List.mem_cons, not_or] at h
    rw [mapErase, if_neg (fun hh => h.1 hh.symm), mapErase_not_mem k rest h.2]

theorem mapErase_sublist (k : Int) : ∀ (l : List (Int × κ)), List.Sublist (mapErase k l) l
  | [] => List.Sublist.refl []
  | (k', v') :: rest => by
    rw [mapErase]
    split_ifs
    · exact List.sublist_cons_self _ _
    · exact List.Sublist.cons₂ _ (mapErase_sublist k rest)

/-- The erase loop of `PrioritySignal::remove` on a list free of the erased
identifier is a no-op. -/
theorem removeLoop_not_mem (cbId : Int) (l : List (PrioritizedCallback κ))
    (h : cbId ∉ l.map PrioritizedCallback.callbackId) : removeLoop cbId l = l := by
  rw [removeLoop_eq_filter]
  apply List.filter_eq_self.2
  intro e he
  simp only [ne_eq, decide_eq_true_eq, decide_not, Bool.not_eq_false']
  rw [Bool.not_eq_true', decide_eq_false_iff_not]
  intro hc
  exact h (hc ▸ List.mem_map_of_mem PrioritizedCallback.callbackId he)

/-! ### Invariants of reachable states -/

/-- Invariant of reachable `Signal` states: the map is keyed by strictly
ascending identifiers, none exceeding the counter. -/
def SInv (s : Signal κ) : Prop :=
  s.callbackMap.Pairwise keyLT ∧ ∀ q ∈ s.callbackMap, q.1 ≤ s.callbackId

theorem SInv_reachable {s : Signal κ} (h : Signal.Reachable s) : SInv s := by
  induction h with
  | init => exact ⟨List.Pairwise.nil, by simp [Signal.mk0]⟩
  | add cb h ih =>
    obtain ⟨h1, h2⟩ := ih
    refine ⟨mapInsert_pairwise _ _ _ h1, ?_⟩
    intro q hq
    simp only [Signal.add] at hq ⊢
    rcases mem_mapInsert _ _ _ q hq with rfl | hq'
    · exact le_refl _
    · have := h2 q hq'
      omega
  | remove cbId h ih =>
    obtain ⟨h1, h2⟩ := ih
    refine ⟨h1.sublist (mapErase_sublist _ _), ?_⟩
    intro q hq
    exact h2 q ((mapErase_sublist _ _).subset hq)
  | removeAll h ih =>
    exact ⟨List.Pairwise.nil, by simp [Signal.removeAll]⟩

/-- Invariant of reachable `PrioritySignal` states: the list is ordered by
`entryOrd` (descending priority, ties in id order) and no identifier exceeds
the counter. -/
def PInv (s : PrioritySignal κ) : Prop :=
  s.callbackList.Pairwise entryOrd ∧ ∀ e ∈ s.callbackList, e.callbackId ≤ s.callbackId

theorem PInv_reachable {s : PrioritySignal κ} (h : PrioritySignal.Reachable s) :
    PInv s := by
  induction h with
  | init c => exact ⟨List.Pairwise.nil, by simp [PrioritySignal.mkUninit]⟩
  | add cb p h ih =>
    obtain ⟨h1, h2⟩ := ih
    constructor
    · simp only [PrioritySignal.add]
      apply sortList_pairwise
      rw [List.pairwise_append]
      refine ⟨h1.imp (fun hab => hab.2), List.pairwise_singleton _ _, ?_⟩
      intro x hx y hy
      rw [List.mem_singleton] at hy
      subst hy
      intro hp
      have := h2 x hx
      simp only
      omega
    · intro e he
      simp only [PrioritySignal.add] at he ⊢
      rcases List.mem_append.1 ((mem_sortList e _).1 he) with he' | he'
      · have := h2 e he'
        omega
      · rw [List.mem_singleton] at he'
        subst he'
        exact le_refl _
  | remove cbId h ih =>
    obtain ⟨h1, h2⟩ := ih
    simp only [PrioritySignal.remove, removeLoop_eq_filter]
    refine ⟨h1.sublist (List.filter_sublist _), ?_⟩
    intro e he
    exact h2 e ((List.filter_sublist _).subset he)
  | removeAll h ih =>
    exact ⟨List.Pairwise.nil, by simp [PrioritySignal.removeAll]⟩

/-! ### The claims -/

/-- C1 (code bug): the claim wants identifiers of both classes to be strictly
increasing, never zero, never repeated, with first identifier 1.  `Signal`
honours this (its constructor sets `callbackId = 0`, so the first `add`
returns 1), but `PrioritySignal` declares no constructor, so `callbackId` is
never initialized and the first identifier is `c + 1` for whatever
indeterminate value `c` the member happens to hold.  Evaluating the model: at
initial counter 5 the first `add` returns 6, not 1, and at initial counter
`-1` it returns 0, the value the library reserves for "not yet issued". -/
theorem C1_first_id_uninitialized :
    ((Signal.mk0 : Signal Unit).runOps [SOp.add ()]).2 = [1] ∧
      ((PrioritySignal.mkUninit 5 : PrioritySignal Unit).runOps
        [POp.add () 0]).2 = [6] ∧
      ((PrioritySignal.mkUninit (-1) : PrioritySignal Unit).runOps
        [POp.add () 0]).2 = [0] :=
  ⟨rfl, rfl, rfl⟩

/-- C2: in every reachable `PrioritySignal` state the listener sequence is
sorted by non-increasing priority, and entries of equal priority appear in
increasing identifier order — identifiers are issued in insertion order, so
ties stand in their relative insertion order (stable sort). -/
theorem C2_priority_order {s : PrioritySignal κ}
    (h : PrioritySignal.Reachable s) :
    s.callbackList.Pairwise (fun a b => b.priority ≤ a.priority ∧
      (a.priority = b.priority → a.callbackId < b.callbackId)) :=
  (PInv_reachable h).1

theorem C2_priority_order_witness :
    ((((((PrioritySignal.mkUninit 0 : PrioritySignal Unit).add () 5).2.add
        () 1).2.add () 10).2.add () 1).2).callbackList.Pairwise
      (fun a b => b.priority ≤ a.priority ∧
        (a.priority = b.priority → a.callbackId < b.callbackId)) :=
  C2_priority_order
    (PrioritySignal.Reachable.add () 1 (PrioritySignal.Reachable.add () 10
      (PrioritySignal.Reachable.add () 1 (PrioritySignal.Reachable.add () 5
        (PrioritySignal.Reachable.init 0)))))

/-- C3: from any `Signal` state with any number of registered listeners, a
dispatch performs exactly one invocation per map entry, in map order, passing
exactly the given arguments, and nothing else; it also raises nothing and
leaves the state unchanged.  `ε = Empty` captures the premise that the
listeners themselves return normally. -/
theorem C3_signal_dispatch_exact (f : κ → A → Option Empty) (s : Signal κ)
    (a : A) :
    Signal.dispatch f s a =
      (s.callbackMap.map (fun q => (q.1, q.2, a)), none, s) :=
  dispatchLoop_noFail Prod.snd Prod.fst f a s s.callbackMap

/-- C4: after adds with priorities 5, 1, 10, 1 (in that order, from any
initial counter value `c`, with any four callables), dispatch invokes the
priority-10 listener first, then the priority-5 one, then the two priority-1
listeners in their insertion order; the recorded identifiers show these are
the third, first, second and fourth `add` respectively. -/
theorem C4_priority_scenario (c : Int) (cb1 cb2 cb3 cb4 : κ) (a : A)
    (f : κ → A → Option Empty) :
    (PrioritySignal.dispatch f
      ((((((PrioritySignal.mkUninit c).add cb1 5).2.add cb2 1).2.add
        cb3 10).2.add cb4 1).2) a).1 =
      [(c + 3, cb3, a), (c + 1, cb1, a), (c + 2, cb2, a), (c + 4, cb4, a)] := by
  rw [PrioritySignal.dispatch, dispatchLoop_noFail]
  simp only [PrioritySignal.add, PrioritySignal.mkUninit, List.nil_append,
    List.cons_append, sortList, insertSorted, PriorityCompare]
  norm_num
  omega

/-- C5: on both classes, a dispatch that follows `remove(i)` never invokes a
listener registered under `i` (for `Signal` this uses that reachable states
have no duplicate key), and removing an identifier that is absent — already
removed or never issued — leaves the registry state completely unchanged. -/
theorem C5_remove_semantics (f : κ → A → Option ε) (a : A)
    (s : Signal κ) (p : PrioritySignal κ) (i j : Int)
    (hs : Signal.Reachable s)
    (hj : j ∉ s.callbackMap.map Prod.fst)
    (hj' : j ∉ p.callbackList.map PrioritizedCallback.callbackId) :
    (∀ t ∈ (Signal.dispatch f (s.remove i) a).1, t.1 ≠ i) ∧
      (∀ t ∈ (PrioritySignal.dispatch f (p.remove i) a).1, t.1 ≠ i) ∧
      s.remove j = s ∧ p.remove j = p := by
  refine ⟨?_, ?_, ?_, ?_⟩
  · intro t ht
    obtain ⟨e, he, rfl⟩ := dispatchLoop_mem _ _ _ _ _ _ t ht
    exact mapErase_keys i s.callbackMap (SInv_reachable hs).1 e he
  · intro t ht
    obtain ⟨e, he, rfl⟩ := dispatchLoop_mem _ _ _ _ _ _ t ht
    have he' : e ∈ removeLoop i p.callbackList := he
    rw [removeLoop_eq_filter] at he'
    have := (List.mem_filter.1 he').2
    simpa using this
  · rw [Signal.remove, mapErase_not_mem j _ hj]
  · rw [PrioritySignal.remove, removeLoop_not_mem j _ hj']

theorem C5_remove_semantics_witness :
    (∀ t ∈ (Signal.dispatch (fun (_ : Bool) (_ : Unit) => (none : Option Unit))
        (((Signal.mk0.add true).2).remove 1) ()).1, t.1 ≠ 1) ∧
      (∀ t ∈ (PrioritySignal.dispatch
        (fun (_ : Bool) (_ : Unit) => (none : Option Unit))
        ((PrioritySignal.mkUninit 0).remove 1) ()).1, t.1 ≠ 1) ∧
      ((Signal.mk0.add true).2).remove 7 = (Signal.mk0.add true).2 ∧
      (PrioritySignal.mkUninit 0 : PrioritySignal Bool).remove 7 =
        PrioritySignal.mkUninit 0 :=
  C5_remove_semantics (fun _ _ => none) () (Signal.mk0.add true).2
    (PrioritySignal.mkUninit 0) 1 7
    (Signal.Reachable.add true Signal.Reachable.init) (by decide) (by decide)

/-- C6: on both classes, if the listener at position `k` of the dispatch order
is the first whose invocation throws, then the thrown value propagates to the
dispatch caller exactly once, the listeners before position `k` have each been
invoked exactly once with the given arguments, the failing listener was
invoked exactly once, no later listener is invoked, and the registry is left
unchanged (abort on first failure, no catching). -/
theorem C6_abort_on_first_throw (f : κ → A → Option ε) (a : A)
    (err1 err2 : ε) (s : Signal κ) (p : PrioritySignal κ) (k1 k2 : Nat)
    (hk1 : k1 < s.callbackMap.length)
    (hf1 : f (s.callbackMap.get ⟨k1, hk1⟩).2 a = some err1)
    (hp1 : ∀ j (hj : j < k1), f (s.callbackMap.get ⟨j, hj.trans hk1⟩).2 a = none)
    (hk2 : k2 < p.callbackList.length)
    (hf2 : f (p.callbackList.get ⟨k2, hk2⟩).priorityCallback a = some err2)
    (hp2 : ∀ j (hj : j < k2),
      f (p.callbackList.get ⟨j, hj.trans hk2⟩).priorityCallback a = none) :
    Signal.dispatch f s a =
        ((s.callbackMap.take (k1+1)).map (fun q => (q.1, q.2, a)),
          some err1, s) ∧
      PrioritySignal.dispatch f p a =
        ((p.callbackList.take (k2+1)).map
          (fun e => (e.callbackId, e.priorityCallback, a)), some err2, p) :=
  ⟨dispatchLoop_take _ _ _ _ _ _ k1 hk1 err1 hf1 hp1,
    dispatchLoop_take _ _ _ _ _ _ k2 hk2 err2 hf2 hp2⟩

theorem C6_abort_on_first_throw_witness :
    Signal.dispatch (fun (c : Bool) (_ : Unit) => if c then some () else none)
        (⟨2, [(1, false), (2, true)]⟩ : Signal Bool) () =
        ([(1, false, ()), (2, true, ())], some (),
          (⟨2, [(1, false), (2, true)]⟩ : Signal Bool)) ∧
      PrioritySignal.dispatch
        (fun (c : Bool) (_ : Unit) => if c then some () else none)
        (⟨2, [⟨false, 5, 1⟩, ⟨true, 3, 2⟩]⟩ : PrioritySignal Bool) () =
        ([(1, false, ()), (2, true, ())], some (),
          (⟨2, [⟨false, 5, 1⟩, ⟨true, 3, 2⟩]⟩ : PrioritySignal Bool)) :=
  C6_abort_on_first_throw (fun c _ => if c then some () else none) () () ()
    ⟨2, [(1, false), (2, true)]⟩ ⟨2, [⟨false, 5, 1⟩, ⟨true, 3, 2⟩]⟩ 1 1
    (by decide) rfl (by decide) (by decide) rfl (by decide)

/-- C7: `removeAll` is idempotent on both classes: a second consecutive call
yields exactly the state the first one produced (same counter, empty
container). -/
theorem C7_removeAll_idempotent (s : Signal κ) (p : PrioritySignal κ) :
    s.removeAll.removeAll = s.removeAll ∧
      p.removeAll.removeAll = p.removeAll :=
  ⟨rfl, rfl⟩

/-- C8: from every reachable `Signal` state, dispatch invokes the listeners in
strictly ascending identifier order (the map iterates in key order and
identifiers are issued increasingly, so this is registration order; dispatch
being a function of the state, repeated dispatches without intervening
mutation repeat the same order). -/
theorem C8_signal_dispatch_ascending (f : κ → A → Option Empty) (a : A)
    {s : Signal κ} (h : Signal.Reachable s) :
    ((Signal.dispatch f s a).1.map (fun t => t.1)).Pairwise (· < ·) := by
  rw [Signal.dispatch, dispatchLoop_noFail]
  simp only [List.map_map]
  rw [List.pairwise_map]
  exact (SInv_reachable h).1.imp (fun hab => hab)

theorem C8_signal_dispatch_ascending_witness :
    ((Signal.dispatch (fun (_ : Bool) (_ : Unit) => (none : Option Empty))
        (((Signal.mk0.add true).2.add false).2) ()).1.map
      (fun t => t.1)).Pairwise (· < ·) :=
  C8_signal_dispatch_ascending (fun _ _ => none) ()
    (Signal.Reachable.add false (Signal.Reachable.add true
      Signal.Reachable.init))

/-- C9: `PrioritySignal::remove` deletes exactly the entries whose identifier
matches and keeps every other entry unchanged in its original relative order
(the erase loop is a filter; no re-sort happens), leaving the counter
untouched. -/
theorem C9_priority_remove_filter (s : PrioritySignal κ) (cbId : Int) :
    (s.remove cbId).callbackId = s.callbackId ∧
      (s.remove cbId).callbackList =
        s.callbackList.filter (fun e => e.callbackId ≠ cbId) :=
  ⟨rfl, removeLoop_eq_filter cbId s.callbackList⟩

/-- C10: dispatch modifies neither registry: the dispatch loop only reads the
container and calls the callables (which, per the claim's proviso, do not
mutate the registry — the invocation semantics `f` has no access to the
state), so counter, entries, identifiers, priorities and order are identical
before and after, whether or not some invocation throws. -/
theorem C10_dispatch_frame (f : κ → A → Option ε) (s : Signal κ)
    (p : PrioritySignal κ) (a : A) :
    (Signal.dispatch f s a).2.2 = s ∧
      (PrioritySignal.dispatch f p a).2.2 = p :=
  ⟨dispatchLoop_state Prod.snd Prod.fst f a s s.callbackMap,
    dispatchLoop_state PrioritizedCallback.priorityCallback
      PrioritizedCallback.callbackId f a p p.callbackList⟩
